import Mathlib

/-!
# Verification of the `tooba` media-library browser (`src/tooba/main.py`)

Shallow embedding of the scan-and-match core of the application:

* `md5HexChars`, `show_key`, `Episode.slugOf` — the content hashes
  (`hashlib.md5(...).hexdigest()[:8]`) implemented over `Nat` bytes;
* `parse_nfo_file` — the Kodi `.nfo` parser, over the outcome of
  `xml.etree.ElementTree.parse` (modelled as `Option XmlNode`, `none`
  standing for a raised `ParseError`);
* `normalize` — text normalisation, parameterised by a `Unicodedata`
  model of the external `unicodedata` tables;
* `match_file` — the layered file-matching strategies, over an explicit
  list of library file paths in traversal order;
* `scan` — the catalog builder, producing an insertion-ordered
  association list mirroring a Python `dict`;
* the route handlers `show_detail`, `episode_detail`, `serve_video`,
  `serve_thumb` at their interface boundary.

The filesystem is modelled as the list of file paths that
`BASE_PATH.rglob` enumerates, in traversal order; file contents are
modelled by the parse outcome of each path.
-/

namespace Tooba

/-! ## MD5 (`hashlib.md5`), over lists of byte values -/

/-- `2^32`, the word modulus of MD5. -/
def M32 : Nat := 4294967296

/-- 32-bit left rotation (operands are `< 2^32`). -/
def rotl32 (x c : Nat) : Nat := ((x <<< c) % M32) ||| (x >>> (32 - c))

/-- 32-bit complement. -/
def not32 (x : Nat) : Nat := x ^^^ 4294967295

/-- The 64 MD5 sine-table constants `K[i]` (RFC 1321). -/
def mdK : List Nat :=
  [0xd76aa478, 0xe8c7b756, 0x242070db, 0xc1bdceee,
   0xf57c0faf, 0x4787c62a, 0xa8304613, 0xfd469501,
   0x698098d8, 0x8b44f7af, 0xffff5bb1, 0x895cd7be,
   0x6b901122, 0xfd987193, 0xa679438e, 0x49b40821,
   0xf61e2562, 0xc040b340, 0x265e5a51, 0xe9b6c7aa,
   0xd62f105d, 0x02441453, 0xd8a1e681, 0xe7d3fbc8,
   0x21e1cde6, 0xc33707d6, 0xf4d50d87, 0x455a14ed,
   0xa9e3e905, 0xfcefa3f8, 0x676f02d9, 0x8d2a4c8a,
   0xfffa3942, 0x8771f681, 0x6d9d6122, 0xfde5380c,
   0xa4beea44, 0x4bdecfa9, 0xf6bb4b60, 0xbebfbc70,
   0x289b7ec6, 0xeaa127fa, 0xd4ef3085, 0x04881d05,
   0xd9d4d039, 0xe6db99e5, 0x1fa27cf8, 0xc4ac5665,
   0xf4292244, 0x432aff97, 0xab9423a7, 0xfc93a039,
   0x655b59c3, 0x8f0ccc92, 0xffeff47d, 0x85845dd1,
   0x6fa87e4f, 0xfe2ce6e0, 0xa3014314, 0x4e0811a1,
   0xf7537e82, 0xbd3af235, 0x2ad7d2bb, 0xeb86d391]

/-- The 64 MD5 per-round shift amounts `s[i]`. -/
def mdS : List Nat :=
  [7, 12, 17, 22, 7, 12, 17, 22, 7, 12, 17, 22, 7, 12, 17, 22,
   5, 9, 14, 20, 5, 9, 14, 20, 5, 9, 14, 20, 5, 9, 14, 20,
   4, 11, 16, 23, 4, 11, 16, 23, 4, 11, 16, 23, 4, 11, 16, 23,
   6, 10, 15, 21, 6, 10, 15, 21, 6, 10, 15, 21, 6, 10, 15, 21]

/-- One MD5 round `i` on state `(a, b, c, d)` with message block `blk`. -/
def md5Round (blk : List Nat) (st : Nat × Nat × Nat × Nat) (i : Nat) :
    Nat × Nat × Nat × Nat :=
  let (a, b, c, d) := st
  let fg : Nat × Nat :=
    if i < 16 then ((b &&& c) ||| (not32 b &&& d), i)
    else if i < 32 then ((d &&& b) ||| (not32 d &&& c), (5 * i + 1) % 16)
    else if i < 48 then (b ^^^ c ^^^ d, (3 * i + 5) % 16)
    else (c ^^^ (b ||| not32 d), (7 * i) % 16)
  let tmp := (fg.1 + a + mdK.getD i 0 + blk.getD fg.2 0) % M32
  (d, (b + rotl32 tmp (mdS.getD i 0)) % M32, b, c)

/-- Process one 16-word block, adding the round result to the state. -/
def md5Block (st : Nat × Nat × Nat × Nat) (blk : List Nat) :
    Nat × Nat × Nat × Nat :=
  let (a, b, c, d) := (List.range 64).foldl (md5Round blk) st
  ((st.1 + a) % M32, (st.2.1 + b) % M32, (st.2.2.1 + c) % M32, (st.2.2.2 + d) % M32)

/-- Group bytes into little-endian 32-bit words, four bytes at a time. -/
def leWords : List Nat → List Nat
  | b0 :: b1 :: b2 :: b3 :: r =>
    (b0 + 256 * b1 + 65536 * b2 + 16777216 * b3) :: leWords r
  | _ => []

/-- Group words into 16-word blocks. -/
def toBlocks : List Nat → List (List Nat)
  | w0 :: w1 :: w2 :: w3 :: w4 :: w5 :: w6 :: w7 ::
    w8 :: w9 :: w10 :: w11 :: w12 :: w13 :: w14 :: w15 :: r =>
    [w0, w1, w2, w3, w4, w5, w6, w7, w8, w9, w10, w11, w12, w13, w14, w15]
      :: toBlocks r
  | _ => []

/-- Little-endian 4-byte serialisation of a 32-bit word. -/
def le4 (w : Nat) : List Nat := [w % 256, w / 256 % 256, w / 65536 % 256, w / 16777216 % 256]

/-- Little-endian 8-byte serialisation of the 64-bit bit length. -/
def le8 (n : Nat) : List Nat := le4 (n % M32) ++ le4 (n / M32 % M32)

/-- MD5 padding: `0x80`, zeros to 56 mod 64, then the bit length. -/
def md5Pad (msg : List Nat) : List Nat :=
  let len := msg.length
  msg ++ 128 :: List.replicate ((119 - len % 64) % 64) 0
      ++ le8 ((8 * len) % (M32 * M32))

/-- The MD5 initial state. -/
def md5Init : Nat × Nat × Nat × Nat := (0x67452301, 0xefcdab89, 0x98badcfe, 0x10325476)

/-- The 16-byte MD5 digest of a byte string. -/
def md5Bytes (msg : List Nat) : List Nat :=
  let st := (toBlocks (leWords (md5Pad msg))).foldl md5Block md5Init
  le4 st.1 ++ le4 st.2.1 ++ le4 st.2.2.1 ++ le4 st.2.2.2

/-- Lowercase hexadecimal digit. -/
def hexDigit (n : Nat) : Char := if n < 10 then Char.ofNat (48 + n) else Char.ofNat (87 + n)

/-- Two lowercase hex digits of one byte. -/
def byteHex (b : Nat) : List Char := [hexDigit (b / 16 % 16), hexDigit (b % 16)]

/-- Our own concat-map, used for list plumbing throughout. -/
def cmap (f : α → List β) : List α → List β
  | [] => []
  | a :: l => f a ++ cmap f l

/-- The 32 lowercase hex characters of `hashlib.md5(msg).hexdigest()`. -/
def md5HexChars (msg : List Nat) : List Char := cmap byteHex (md5Bytes msg)

/-- UTF-8 encoding of one character (`str.encode`). -/
def utf8Char (c : Char) : List Nat :=
  let n := c.toNat
  if n < 128 then [n]
  else if n < 2048 then [192 + n / 64, 128 + n % 64]
  else if n < 65536 then [224 + n / 4096, 128 + n / 64 % 64, 128 + n % 64]
  else [240 + n / 262144, 128 + n / 4096 % 64, 128 + n / 64 % 64, 128 + n % 64]

/-- UTF-8 encoding of a string (`str.encode()`). -/
def utf8 (s : String) : List Nat := cmap utf8Char s.toList

/-- `show_key` (main.py:151): first 8 hex chars of the MD5 of the title. -/
def show_key (title : String) : String := String.mk ((md5HexChars (utf8 title)).take 8)

/-! ## Data model (main.py:37-58) -/

/-- `Episode` dataclass (main.py:37-50). All source fields are
string-typed; the optional ones default to `None`. -/
structure Episode where
  showtitle : String
  title : String
  season : String
  episode : String
  plot : String
  aired : Option String := none
  video_file : Option String := none
  thumbnail : Option String := none
deriving DecidableEq, Repr

/-- `Episode.slug` (main.py:48-50): first 8 hex chars of the MD5 of
`f"{showtitle}-s{season}e{episode}-{title}"`. -/
def Episode.slugOf (e : Episode) : String :=
  String.mk ((md5HexChars (utf8
    (e.showtitle ++ "-s" ++ e.season ++ "e" ++ e.episode ++ "-" ++ e.title))).take 8)

/-- `Show` dataclass (main.py:53-58). -/
structure Show where
  title : String
  plot : String
  thumb : Option String := none
  episodes : List Episode := []
deriving DecidableEq, Repr

/-! ## XML parse outcomes and `parse_nfo_file` (main.py:64-99)

`ET.parse` is external; we embed its outcome: `none` models a raised
`ET.ParseError` (malformed markup), `some root` a parsed tree.  `text`
is the element text (`None` for an empty element, as in ElementTree). -/

/-- A parsed XML element: tag, element text, direct children. -/
inductive XmlNode where
  | mk (tag : String) (txt : Option String) (kids : List XmlNode)

/-- Tag of a node. -/
def XmlNode.tag : XmlNode → String
  | .mk t _ _ => t

/-- Element text of a node. -/
def XmlNode.txt : XmlNode → Option String
  | .mk _ x _ => x

/-- Direct children of a node. -/
def XmlNode.kids : XmlNode → List XmlNode
  | .mk _ _ k => k

/-- `_get` (main.py:64-67): text of the first direct child with the
given tag, `None` when no such child. -/
def xmlGet (el : XmlNode) (tagname : String) : Option String :=
  match el.kids.find? (fun n => n.tag == tagname) with
  | some n => n.txt
  | none => none

/-- `_get(root, t) or ""` — Python `or` maps both `None` and `""` to `""`. -/
def xmlGetD (el : XmlNode) (tagname : String) : String :=
  match xmlGet el tagname with
  | some s => s
  | none => ""

/-- `parse_nfo_file` (main.py:73-99) over the parse outcome of the file.
Returns the flat meta mapping as an association list. -/
def parse_nfo_file (doc : Option XmlNode) : List (String × String) :=
  match doc with
  | none => []
  | some root =>
    match root.tag with
    | "tvshow" =>
      [("type", "show"),
       ("title", xmlGetD root "title"),
       ("plot", xmlGetD root "plot"),
       ("thumb", xmlGetD root "thumb")]
    | "episodedetails" =>
      [("type", "episode"),
       ("showtitle", xmlGetD root "showtitle"),
       ("title", xmlGetD root "title"),
       ("season", xmlGetD root "season"),
       ("episode", xmlGetD root "episode"),
       ("plot", xmlGetD root "plot"),
       ("aired", xmlGetD root "aired")]
    | _ => []

/-- `meta[k]` on parser output (keys are present whenever `type` is set;
absent keys default to `""`, observationally equal on parser outputs). -/
def metaD (meta : List (String × String)) (k : String) : String :=
  (meta.lookup k).getD ""

/-! ## `normalize` (main.py:105-109)

The external `unicodedata` tables are modelled by a `Unicodedata`
record.  Canonical reordering of combining marks inside NFD is not
modelled (it only permutes combining marks within one combining
sequence); per-character decomposition and category lookup are. -/

/-- Model of the external `unicodedata` tables and `str.lower`:
`decomp c` is the full canonical (NFD) decomposition of `c`, `isMn c`
decides `category(c) == "Mn"`, and `lowerChar c` is the (possibly
multi-character) `str.lower` image of `c`. -/
structure Unicodedata where
  decomp : Char → List Char
  isMn : Char → Bool
  lowerChar : Char → List Char

/-- `normalize` (main.py:105-109): NFD-decompose, drop Mn marks,
lowercase, replace `' '` by `'.'`, delete `','`/`'?'`/`'!'`. -/
def normalize (u : Unicodedata) (txt : String) : String :=
  let base := cmap u.decomp txt.toList
  let stripped := base.filter (fun c => ! u.isMn c)
  let lowered := cmap u.lowerChar stripped
  let dotted := lowered.map (fun c => if c = ' ' then '.' else c)
  String.mk (dotted.filter (fun c => ! (c == ',' || c == '?' || c == '!')))

/-- ASCII instantiation of the `unicodedata` model, faithful on ASCII
text (no ASCII character has a canonical decomposition, none is a
nonspacing mark, and `str.lower` is the A–Z shift). The concrete claims
below evaluate `normalize` on ASCII strings only. -/
def asciiData : Unicodedata where
  decomp c := [c]
  isMn _ := false
  lowerChar c := [if 'A' ≤ c && c ≤ 'Z' then Char.ofNat (c.toNat + 32) else c]

/-! ## Path helpers (`pathlib.PurePath` on POSIX path strings) -/

/-- Final path component (`Path.name`). -/
def nameOf (p : String) : String :=
  String.mk ((p.toList.reverse.takeWhile (fun c => c ≠ '/')).reverse)

/-- Everything up to and including the last `'/'`. -/
def dirOf (p : String) : String :=
  String.mk ((p.toList.reverse.dropWhile (fun c => c ≠ '/')).reverse)

/-- CPython `PurePath` stem/suffix split of a final component: the
suffix starts at the last dot, provided it is neither the first nor the
last character of the name. -/
def splitExtName (name : String) : String × String :=
  let r := name.toList.reverse
  let pre := r.takeWhile (fun c => c ≠ '.')
  match r.dropWhile (fun c => c ≠ '.') with
  | [] => (name, "")
  | _ :: restTail =>
    if restTail.isEmpty || pre.isEmpty then (name, "")
    else (String.mk restTail.reverse, String.mk ('.' :: pre.reverse))

/-- `Path.stem`. -/
def stemOf (p : String) : String := (splitExtName (nameOf p)).1

/-- `Path.suffix`. -/
def suffixOf (p : String) : String := (splitExtName (nameOf p)).2

/-- `Path.with_suffix(ext)`: replace the suffix of the final component. -/
def with_suffix (p ext : String) : String := dirOf p ++ stemOf p ++ ext

/-- `str.lower` on the ASCII suffix strings being compared. -/
def lowerAscii (s : String) : String :=
  String.mk (s.toList.map (fun c => if 'A' ≤ c && c ≤ 'Z' then Char.ofNat (c.toNat + 32) else c))

/-- `str.endswith` on the final path component. -/
def strEndsWith (s post : String) : Bool :=
  post.toList.reverse.isPrefixOf s.toList.reverse

/-- Python substring containment (`needle in hay`) on char lists. -/
def infixOf : List Char → List Char → Bool
  | n, [] => n.isEmpty
  | n, h :: t => n.isPrefixOf (h :: t) || infixOf n t

/-- Python substring containment on strings. -/
def containsSub (needle hay : String) : Bool := infixOf needle.toList hay.toList

/-- `str.zfill(w)`: left-pad with zeros to width `w`, after a sign. -/
def zfill (s : String) (w : Nat) : String :=
  let l := s.toList
  let sb : List Char × List Char :=
    match l with
    | c :: rest => if c = '+' || c = '-' then ([c], rest) else ([], l)
    | [] => ([], [])
  String.mk (sb.1 ++ List.replicate (w - l.length) '0' ++ sb.2)

/-! ## `_match_file` (main.py:115-148)

`fs` is the list of file paths under `BASE_PATH` in traversal order
(the order `rglob` enumerates); `path.exists()` is membership in `fs`.
`frozenset` iteration order is unspecified, so the accepted-extension
set is passed as a list in some order. -/

/-- `VIDEO_EXTENSIONS` (main.py:28), in one of the possible set orders. -/
def videoExts : List String := [".mp4", ".webm", ".mkv", ".avi"]

/-- The thumbnail extension set `{THUMB_EXTENSION}` (main.py:29,148). -/
def thumbExts : List String := [".tbn"]

/-- The `_candidates` generator (main.py:118-124): sibling paths with
each extension substituted, then every library file whose name starts
with the descriptor's stem and whose lowercased suffix is accepted. -/
def candidatesOf (fs : List String) (nfo : String) (exts : List String) : List String :=
  exts.map (fun ext => with_suffix nfo ext) ++
    fs.filter (fun p =>
      (stemOf nfo).toList.isPrefixOf (nameOf p).toList && exts.contains (lowerAscii (suffixOf p)))

/-- The fuzzy season/episode token patterns (main.py:136). -/
def fuzzyPatterns (season ep : String) : List String :=
  ["s" ++ season ++ "e" ++ ep, "s" ++ zfill season 2 ++ "e" ++ zfill ep 2]

/-- `_match_file` (main.py:115-144): first existing candidate, else the
fuzzy scan for episodes, else `none`. -/
def match_file (u : Unicodedata) (fs : List String) (nfo : String)
    (meta : List (String × String)) (exts : List String) : Option String :=
  match (candidatesOf fs nfo exts).find? (fun p => fs.contains p) with
  | some p => some p
  | none =>
    if (meta.lookup "type") ≠ some "episode" then none
    else
      let shw := normalize u (metaD meta "showtitle")
      let title := normalize u (metaD meta "title")
      let patterns := fuzzyPatterns (metaD meta "season") (metaD meta "episode")
      fs.find? (fun p =>
        exts.contains (lowerAscii (suffixOf p)) &&
          (let stem := normalize u (stemOf p)
           containsSub shw stem &&
             (containsSub title stem || patterns.any (fun tok => containsSub tok stem))))

/-! ## `scan` (main.py:158-186)

The result is an insertion-ordered association list mirroring a Python
`dict`: assignment overwrites in place, `setdefault` appends at the
end when the key is fresh.  `content` gives each path's parse outcome.
The `lru_cache` memoisation is process-lifecycle, outside the model. -/

/-- Python `dict.get`. -/
def dictGet? (d : List (String × Show)) (k : String) : Option Show :=
  (d.find? (fun kv => kv.1 == k)).map (fun kv => kv.2)

/-- Python `d[k] = v`: overwrite in place, else append. -/
def dictSet (d : List (String × Show)) (k : String) (v : Show) : List (String × Show) :=
  if d.any (fun kv => kv.1 == k) then
    d.map (fun kv => if kv.1 == k then (kv.1, v) else kv)
  else d ++ [(k, v)]

/-- `d.setdefault(k, deflt).episodes.append(e)` (main.py:181-183). -/
def appendEpisode (d : List (String × Show)) (k : String) (deflt : Show) (e : Episode) :
    List (String × Show) :=
  if d.any (fun kv => kv.1 == k) then
    d.map (fun kv =>
      if kv.1 == k then (kv.1, { kv.2 with episodes := kv.2.episodes ++ [e] }) else kv)
  else d ++ [(k, { deflt with episodes := deflt.episodes ++ [e] })]

/-- The body of the `scan` loop for one descriptor file (main.py:164-185). -/
def scanStep (u : Unicodedata) (fs : List String) (content : String → Option XmlNode)
    (d : List (String × Show)) (nfo : String) : List (String × Show) :=
  let meta := parse_nfo_file (content nfo)
  match meta.lookup "type" with
  | some "show" =>
    dictSet d (show_key (metaD meta "title"))
      { title := metaD meta "title", plot := metaD meta "plot",
        thumb := some (metaD meta "thumb"), episodes := [] }
  | some "episode" =>
    let e : Episode :=
      { showtitle := metaD meta "showtitle", title := metaD meta "title",
        season := metaD meta "season", episode := metaD meta "episode",
        plot := metaD meta "plot", aired := meta.lookup "aired",
        video_file := match_file u fs nfo meta videoExts,
        thumbnail := match_file u fs nfo meta thumbExts }
    appendEpisode d (show_key (metaD meta "showtitle"))
      { title := metaD meta "showtitle", plot := "", thumb := none, episodes := [] } e
  | _ => d

/-- `scan` (main.py:158-186): fold the step over every `*.nfo` file in
traversal order (`fs` holds regular files only, so the `is_file` guard
is satisfied). -/
def scan (u : Unicodedata) (fs : List String) (content : String → Option XmlNode) :
    List (String × Show) :=
  (fs.filter (fun p => strEndsWith (nameOf p) ".nfo")).foldl (scanStep u fs content) []

/-! ## Episode ordering on the show page (main.py:463)

`sorted(show.episodes, key=lambda e: (e.season, e.episode))` — a stable
sort under lexicographic tuple comparison, with the components compared
as strings.  A stable sort's output is unique, so Mathlib's (stable)
insertion sort is extensionally the same function as CPython's sort. -/

/-- The sort key order of main.py:463: lexicographic on the pair
`(season, episode)`, each component compared as a string by code
points (Python `str` comparison, i.e. lexicographic on `toList`).
`epLe a b` holds exactly when Python's stable sort may keep `a` before
`b`, i.e. when `not (key b < key a)`. -/
def epLe (a b : Episode) : Prop :=
  a.season.toList < b.season.toList ∨
    (a.season = b.season ∧ a.episode.toList ≤ b.episode.toList)

instance : DecidableRel epLe := fun a b => by
  unfold epLe; infer_instance

instance : IsTotal Episode epLe where
  total a b := by
    rcases lt_trichotomy a.season.toList b.season.toList with h | h | h
    · exact Or.inl (Or.inl h)
    · have hs : a.season = b.season := String.toList_inj.mp h
      rcases le_total a.episode.toList b.episode.toList with h2 | h2
      · exact Or.inl (Or.inr ⟨hs, h2⟩)
      · exact Or.inr (Or.inr ⟨hs.symm, h2⟩)
    · exact Or.inr (Or.inl h)

instance : IsTrans Episode epLe where
  trans a b c hab hbc := by
    rcases hab with h1 | ⟨e1, l1⟩
    · rcases hbc with h2 | ⟨e2, _⟩
      · exact Or.inl (lt_trans h1 h2)
      · exact Or.inl (by rw [← e2]; exact h1)
    · rcases hbc with h2 | ⟨e2, l2⟩
      · exact Or.inl (by rw [e1]; exact h2)
      · exact Or.inr ⟨e1.trans e2, le_trans l1 l2⟩

/-- The display order of a show's episodes (main.py:463). -/
def sortEpisodes (l : List Episode) : List Episode := List.insertionSort epLe l

/-! ## Season-letter rendering (main.py:415, main.py:486)

`chr(ord("A") + int(ep.season) - 1)` — `int()` raises `ValueError` on a
non-integer string and `chr` raises for code points outside
`0..0x10FFFF`.  We model `int(str)` for ASCII literals (optional
whitespace, optional sign, decimal digits with single interior
underscores); `none` models a raised exception. -/

/-- ASCII whitespace stripped by Python `int(str)`. -/
def isPySpace : Char → Bool
  | ' ' | '\t' | '\n' | '\x0b' | '\x0c' | '\r' => true
  | _ => false

/-- Digit run with single interior underscores, accumulating the value. -/
def pyDigits : Nat → List Char → Option Nat
  | acc, [] => some acc
  | acc, '_' :: c :: rest =>
    if c.isDigit then pyDigits (acc * 10 + (c.toNat - 48)) rest else none
  | acc, c :: rest =>
    if c.isDigit then pyDigits (acc * 10 + (c.toNat - 48)) rest else none

/-- Python `int(str)` on ASCII decimal literals; `none` = `ValueError`. -/
def pyInt? (s : String) : Option Int :=
  let l := (s.toList.dropWhile isPySpace).reverse.dropWhile isPySpace |>.reverse
  let signBody : Bool × List Char :=
    match l with
    | '+' :: rest => (false, rest)
    | '-' :: rest => (true, rest)
    | _ => (false, l)
  match signBody.2 with
  | [] => none
  | c :: rest =>
    if c.isDigit then
      (pyDigits (c.toNat - 48) rest).map (fun n =>
        if signBody.1 then -(n : Int) else (n : Int))
    else none

/-- `chr(ord("A") + int(season) - 1)` as a code point; `none` models a
raised `ValueError` (from `int` or from `chr` on an out-of-range value). -/
def seasonLetterCode (season : String) : Option Nat :=
  (pyInt? season).bind (fun n =>
    let m : Int := 65 + n - 1
    if 0 ≤ m ∧ m ≤ 1114111 then some m.toNat else none)

/-- Python truthiness of an optional string (`if ep.thumbnail:`). -/
def truthyOpt : Option String → Bool
  | none => false
  | some s => !s.isEmpty

/-- Python truthiness of a string (`if ep.season and ep.episode:`). -/
def truthyStr (s : String) : Bool := !s.isEmpty

/-! ## Routes at the interface boundary (main.py:436-545)

Rendering markup is out of scope; a handler outcome is a rendered page
(served by the framework with HTTP status 200), a raw-file response, or
a raised `HTTPException` with its status code.  An overall `none`
models an uncaught exception escaping the handler. -/

/-- Observable handler outcome. -/
inductive Response where
  | page (title : String) (episodesShown : List Episode)
  | fileOut (path : String)
  | httpError (code : Nat) (detail : String)
deriving DecidableEq

/-- HTTP status of an outcome: rendered pages and file responses are
served with 200, `HTTPException(c)` with `c`. -/
def Response.status : Response → Nat
  | .page _ _ => 200
  | .fileOut _ => 200
  | .httpError c _ => c

/-- `episode_card` (main.py:375-430): `none` models the `ValueError`
escaping from the season-letter computation, which runs only when a
thumbnail is present and season and episode are both non-empty. -/
def episode_card (ep : Episode) : Option Unit :=
  if truthyOpt ep.thumbnail then
    if truthyStr ep.season && truthyStr ep.episode then
      (seasonLetterCode ep.season).map (fun _ => ())
    else some ()
  else some ()

/-- `show_detail` (main.py:445-466): unknown key renders the not-found
page; otherwise the episodes are rendered as cards in sorted order
(an exception from any card escapes as `none`). -/
def show_detail (catalog : List (String × Show)) (show_hash : String) : Option Response :=
  match dictGet? catalog show_hash with
  | none => some (.page "Show Not Found" [])
  | some s =>
    if s.episodes.isEmpty then some (.page s.title [])
    else
      let eps := sortEpisodes s.episodes
      if eps.all (fun e => (episode_card e).isSome) then some (.page s.title eps)
      else none

/-- The episode detail/player page of a found episode (main.py:478-526):
the header recomputes the season letter when season and episode are
both truthy; `none` models the escaping `ValueError`. -/
def episode_detail_page (ep : Episode) : Option Response :=
  if truthyStr ep.season && truthyStr ep.episode then
    (seasonLetterCode ep.season).map (fun _ =>
      .page (ep.season ++ "×" ++ ep.episode ++ " " ++ ep.title) [])
  else some (.page (ep.season ++ "×" ++ ep.episode ++ " " ++ ep.title) [])

/-- `episode_detail` (main.py:469-526): linear scan over all episodes
by slug; unknown hash renders the not-found page. -/
def episode_detail (catalog : List (String × Show)) (episode_hash : String) :
    Option Response :=
  match (cmap (fun kv => kv.2.episodes) catalog).find?
      (fun e => e.slugOf == episode_hash) with
  | none => some (.page "Episode Not Found" [])
  | some ep => episode_detail_page ep

/-- `serve_video` (main.py:532-537): `fs` is the set of regular files
on disk; `path` is the already-percent-decoded URL fragment. -/
def serve_video (fs : List String) (path : String) : Response :=
  if fs.contains ("/" ++ path) then .fileOut ("/" ++ path)
  else .httpError 404 "Video not found"

/-- `serve_thumb` (main.py:540-545). -/
def serve_thumb (fs : List String) (path : String) : Response :=
  if fs.contains ("/" ++ path) then .fileOut ("/" ++ path)
  else .httpError 404 "Thumbnail not found"

/-! ## Concrete fixtures used by the claims -/

/-- The parsed meta mapping of the C2 episode descriptor. -/
def metaC2 : List (String × String) :=
  [("type", "episode"), ("showtitle", "My Show"), ("title", "Pilot"),
   ("season", "1"), ("episode", "1"), ("plot", ""), ("aired", "")]

/-- Descriptor path for the C2 scenario (its stem matches no media file). -/
def nfoC2 : String := "/lib/My Show/episode1.nfo"

/-- C2 library exactly as the claim states it. -/
def fsC2 : List String := [nfoC2, "/lib/My Show/myshow.s01e01.mkv"]

/-- C2 library with a media file whose stem does contain the show token. -/
def fsC2r : List String := [nfoC2, "/lib/My Show/My Show s01e01.mkv"]

/-- The parsed `tvshow` descriptor for "Foo". -/
def showXmlFoo : XmlNode :=
  .mk "tvshow" none [.mk "title" (some "Foo") [], .mk "plot" (some "Great") []]

/-- The parsed `episodedetails` descriptor with showtitle "Foo". -/
def epXmlFoo : XmlNode :=
  .mk "episodedetails" none
    [.mk "showtitle" (some "Foo") [], .mk "title" (some "Bar") [],
     .mk "season" (some "1") [], .mk "episode" (some "2") [],
     .mk "plot" (some "P") []]

/-- Parse outcomes of the two C1 descriptor files. -/
def contentC1 : String → Option XmlNode := fun p =>
  if p = "/lib/show.nfo" then some showXmlFoo
  else if p = "/lib/ep.nfo" then some epXmlFoo else none

/-- C1 traversal order A: the show descriptor first. -/
def fsC1A : List String := ["/lib/show.nfo", "/lib/ep.nfo"]

/-- C1 traversal order B: the episode descriptor first. -/
def fsC1B : List String := ["/lib/ep.nfo", "/lib/show.nfo"]

/-- The Episode that the C1 scan builds from `epXmlFoo` (no media files
exist in the library, so both resolved paths are `none`). -/
def epFooBar : Episode :=
  { showtitle := "Foo", title := "Bar", season := "1", episode := "2",
    plot := "P", aired := some "", video_file := none, thumbnail := none }

/-- The Show entry produced by the C1 scan in order A. -/
def showFooA : Show :=
  { title := "Foo", plot := "Great", thumb := some "", episodes := [epFooBar] }

/-- Episode numbered "10" of season "1" (C7). -/
def ep10C7 : Episode :=
  { showtitle := "S", title := "a", season := "1", episode := "10", plot := "" }

/-- Episode numbered "2" of season "1" (C7). -/
def ep2C7 : Episode :=
  { showtitle := "S", title := "b", season := "1", episode := "2", plot := "" }

/-- An episode with a non-integer season, a thumbnail and a non-empty
episode number (C9 witness). -/
def epSpecial : Episode :=
  { showtitle := "Show", title := "T", season := "Special", episode := "1",
    plot := "", aired := none, video_file := none, thumbnail := some "/lib/x.tbn" }

/-- Whether a character is a lowercase hexadecimal digit of `hexdigest`. -/
def isHexDigit (c : Char) : Bool :=
  ('0' ≤ c && c ≤ '9') || ('a' ≤ c && c ≤ 'f')

/-! ## C1 — scan of one show and one episode descriptor for "Foo" -/

/-- C1 (counterexample): with the episode descriptor processed first
and the show descriptor second, the single Show entry keyed by
`show_key "Foo"` has an **empty** episode list — the unconditional
`shows[key] = Show(...)` on the show path discards the episode, so the
claimed "exactly one Episode regardless of processing order" is false. -/
theorem c1_counterexample :
    scan asciiData fsC1B contentC1 =
      [(show_key "Foo",
        { title := "Foo", plot := "Great", thumb := some "", episodes := [] })] := by
  decide

/-- C1 (amended): scanning the library with one `tvshow` descriptor for
"Foo" and one `episodedetails` descriptor with showtitle "Foo" yields
exactly one Show entry keyed by `show_key "Foo"` in either order; the
entry holds the one Episode when the show descriptor is processed
first, and zero episodes when it is processed second. -/
theorem c1_amended :
    scan asciiData fsC1A contentC1 = [(show_key "Foo", showFooA)] ∧
    scan asciiData fsC1B contentC1 =
      [(show_key "Foo",
        { title := "Foo", plot := "Great", thumb := some "", episodes := [] })] := by
  constructor
  · decide
  · decide

/-! ## C2 — fuzzy matching on `/lib/My Show/myshow.s01e01.mkv` -/

/-- C2 (counterexample): for the descriptor meta of the claim and the
library containing exactly `/lib/My Show/myshow.s01e01.mkv` (no
sibling-stem or same-stem match), the matcher returns `none`, not that
file: the fuzzy strategy requires the normalized show-title token
`"my.show"` to occur in the normalized stem `"myshow.s01e01"`, and it
does not. -/
theorem c2_counterexample :
    match_file asciiData fsC2 nfoC2 metaC2 videoExts = none := by
  decide

/-- C2 (amended): with a library file whose stem does contain the
normalized show-title token — `/lib/My Show/My Show s01e01.mkv` — the
fuzzy strategy returns that file via the zero-padded season/episode
pattern `s01e01` (the unpadded pattern `s1e1` and the normalized
episode-title token `pilot` are both absent from the stem). -/
theorem c2_amended :
    match_file asciiData fsC2r nfoC2 metaC2 videoExts =
      some "/lib/My Show/My Show s01e01.mkv" ∧
    containsSub (normalize asciiData "Pilot")
      (normalize asciiData (stemOf "/lib/My Show/My Show s01e01.mkv")) = false ∧
    containsSub "s1e1"
      (normalize asciiData (stemOf "/lib/My Show/My Show s01e01.mkv")) = false ∧
    containsSub "s01e01"
      (normalize asciiData (stemOf "/lib/My Show/My Show s01e01.mkv")) = true := by
  decide

/-! ## C3 — normalization of "Mr. Robot" vs "mr robot" -/

/-- C3 (counterexample): `normalize` does **not** identify "Mr. Robot"
with "mr robot": the period is not in the narrow `,?!` removal set and
the space becomes `'.'`, so the two normal forms differ. -/
theorem c3_counterexample :
    normalize asciiData "Mr. Robot" ≠ normalize asciiData "mr robot" := by
  decide

/-- C3 (amended): only `','`, `'?'`, `'!'` are removed (not general
punctuation, in particular not `'.'`), spaces become `'.'` and letters
are lowercased; hence "Mr. Robot" normalizes to "mr..robot" while
"mr robot" normalizes to "mr.robot", and titles differing only by case
and by `,?!` characters — such as "Mr, Robot!" and "mr robot" — do
normalize identically. -/
theorem c3_amended :
    normalize asciiData "Mr. Robot" = "mr..robot" ∧
    normalize asciiData "mr robot" = "mr.robot" ∧
    normalize asciiData "Mr, Robot!" = normalize asciiData "mr robot" ∧
    normalize asciiData "a,b?c!d.e f" = "abcd.e.f" := by
  decide

/-! ## C4 — the parser fails closed -/

/-- C4: for every descriptor input whose parse outcome is either a
parse failure (`none`, i.e. `ET.ParseError`, the only exception the
source can raise there and which it catches) or a document whose root
element is neither `tvshow` nor `episodedetails`, `parse_nfo_file`
returns the empty mapping; the function is total, so no exception
propagates. -/
theorem c4_parser_fails_closed (d : Option XmlNode)
    (h : ∀ e, d = some e → e.tag ≠ "tvshow" ∧ e.tag ≠ "episodedetails") :
    parse_nfo_file d = [] := by
  cases d with
  | none => rfl
  | some e =>
    obtain ⟨h1, h2⟩ := h e rfl
    simp only [parse_nfo_file]

/-- C4 witness: a well-formed document with root `movie`. -/
theorem c4_witness : parse_nfo_file (some (.mk "movie" none [])) = [] :=
  c4_parser_fails_closed (some (.mk "movie" none []))
    (fun e h => by injection h with h2; subst h2; exact ⟨by decide, by decide⟩)

/-! ## C6 — sibling match wins before any library-wide strategy -/

/-- `l.contains a = true` from membership (`BEq`-lawful `String`). -/
theorem contains_eq_true_of_mem {l : List String} {a : String} (h : a ∈ l) :
    l.contains a = true :=
  List.elem_iff.mpr h

/-- `l.contains a = false` from non-membership. -/
theorem contains_eq_false_of_not_mem {l : List String} {a : String} (h : a ∉ l) :
    l.contains a = false := by
  cases hc : l.contains a with
  | false => rfl
  | true => exact absurd (List.elem_iff.mp hc) h

/-- If the target sibling exists and no other sibling candidate does,
the sibling segment of `_candidates` finds the target — whatever order
the extension set is iterated in. -/
theorem find_first_sibling (fs : List String) (nfo target : String) (exts : List String)
    (hmem : target ∈ exts)
    (hsib : with_suffix nfo target ∈ fs)
    (hothers : ∀ e ∈ exts, e ≠ target → with_suffix nfo e ∉ fs) :
    (exts.map (fun ext => with_suffix nfo ext)).find? (fun p => fs.contains p) =
      some (with_suffix nfo target) := by
  induction exts with
  | nil => cases hmem
  | cons e rest ih =>
    rw [List.map_cons]
    by_cases het : e = target
    · subst het
      exact List.find?_cons_of_pos _ (contains_eq_true_of_mem hsib)
    · have hnm : with_suffix nfo e ∉ fs := hothers e (List.mem_cons_self e rest) het
      rw [List.find?_cons_of_neg _ (by simpa using hnm)]
      refine ih ?_ ?_
      · rcases List.mem_cons.mp hmem with h | h
        · exact absurd h.symm het
        · exact h
      · exact fun e' he' => hothers e' (List.mem_cons_of_mem e he')

/-- C6: for the descriptor `/lib/Show/ep.nfo` and any library state in
which the sibling `/lib/Show/ep.mp4` exists and no other sibling
candidate does, the matcher returns that sibling — for every metadata
mapping, every iteration order of the accepted-extension set containing
`.mp4`, and every remainder of the library (so neither the
library-wide stem strategy nor the fuzzy strategy is ever consulted). -/
theorem c6_sibling_wins (fs : List String) (meta : List (String × String))
    (exts : List String)
    (hmem : ".mp4" ∈ exts)
    (hsib : "/lib/Show/ep.mp4" ∈ fs)
    (hothers : ∀ e ∈ exts, e ≠ ".mp4" → with_suffix "/lib/Show/ep.nfo" e ∉ fs) :
    match_file asciiData fs "/lib/Show/ep.nfo" meta exts = some "/lib/Show/ep.mp4" := by
  have hws : with_suffix "/lib/Show/ep.nfo" ".mp4" = "/lib/Show/ep.mp4" := by decide
  have h1 := find_first_sibling fs "/lib/Show/ep.nfo" ".mp4" exts hmem
    (by rw [hws]; exact hsib) hothers
  have hfind : (candidatesOf fs "/lib/Show/ep.nfo" exts).find? (fun p => fs.contains p) =
      some "/lib/Show/ep.mp4" := by
    unfold candidatesOf
    rw [List.find?_append, h1, hws]
    rfl
  unfold match_file
  rw [hfind]

/-- C6 witness: a library with the descriptor, its `.mp4` sibling, and
an unrelated media file. -/
theorem c6_witness :
    match_file asciiData ["/lib/Show/ep.nfo", "/lib/Show/ep.mp4", "/lib/Show/Show s01e01.mkv"]
      "/lib/Show/ep.nfo" [] videoExts = some "/lib/Show/ep.mp4" :=
  c6_sibling_wins ["/lib/Show/ep.nfo", "/lib/Show/ep.mp4", "/lib/Show/Show s01e01.mkv"]
    [] videoExts (by decide) (by decide) (by decide)

/-! ## C7 — episodes sorted by (season, episode) as strings -/

/-- The show of the C7 display example. -/
def showC7 : Show := { title := "T7", plot := "", thumb := none, episodes := [ep2C7, ep10C7] }

/-- C7: the show page displays a show's episodes stable-sorted by the
pair `(season, episode)` compared as strings (`sortEpisodes` is a
permutation of the episode list, sorted under the string-lexicographic
key order `epLe`), and the comparison is textual, not numeric: episode
"10" of season "1" is displayed before episode "2" of the same season,
as the rendered show page for `showC7` exhibits. -/
theorem c7_show_page_sorted_as_strings :
    (∀ l : List Episode, List.Perm (sortEpisodes l) l) ∧
    (∀ l : List Episode, List.Sorted epLe (sortEpisodes l)) ∧
    sortEpisodes [ep2C7, ep10C7] = [ep10C7, ep2C7] ∧
    show_detail [("k7", showC7)] "k7" = some (.page "T7" [ep10C7, ep2C7]) :=
  ⟨fun l => List.perm_insertionSort epLe l,
   fun l => List.sorted_insertionSort epLe l,
   by decide, by decide⟩

/-! ## C8 — rendered not-found pages vs protocol-level 404 -/

/-- C8: an unknown show or episode hash yields a rendered not-found
page served with HTTP 200, while a missing raw video or thumbnail file
yields a protocol-level `HTTPException` with status 404. -/
theorem c8_not_found_semantics (catalog : List (String × Show)) (fs : List String)
    (hs he vp tp : String)
    (h1 : dictGet? catalog hs = none)
    (h2 : ∀ e ∈ cmap (fun kv => kv.2.episodes) catalog, e.slugOf ≠ he)
    (h3 : ("/" ++ vp) ∉ fs)
    (h4 : ("/" ++ tp) ∉ fs) :
    show_detail catalog hs = some (.page "Show Not Found" []) ∧
    episode_detail catalog he = some (.page "Episode Not Found" []) ∧
    (∀ r, show_detail catalog hs = some r → r.status = 200) ∧
    (∀ r, episode_detail catalog he = some r → r.status = 200) ∧
    serve_video fs vp = .httpError 404 "Video not found" ∧
    (serve_video fs vp).status = 404 ∧
    serve_thumb fs tp = .httpError 404 "Thumbnail not found" ∧
    (serve_thumb fs tp).status = 404 := by
  have hshow : show_detail catalog hs = some (.page "Show Not Found" []) := by
    unfold show_detail
    rw [h1]
  have hfind : (cmap (fun kv => kv.2.episodes) catalog).find?
      (fun e => e.slugOf == he) = none :=
    List.find?_eq_none.mpr (fun e hme => by simp [h2 e hme])
  have hep : episode_detail catalog he = some (.page "Episode Not Found" []) := by
    unfold episode_detail
    rw [hfind]
  have hv : serve_video fs vp = .httpError 404 "Video not found" := by
    unfold serve_video
    rw [contains_eq_false_of_not_mem h3]
    rfl
  have ht : serve_thumb fs tp = .httpError 404 "Thumbnail not found" := by
    unfold serve_thumb
    rw [contains_eq_false_of_not_mem h4]
    rfl
  refine ⟨hshow, hep, ?_, ?_, hv, ?_, ht, ?_⟩
  · intro r hr
    rw [hshow] at hr
    injection hr with hr2
    rw [← hr2]
    rfl
  · intro r hr
    rw [hep] at hr
    injection hr with hr2
    rw [← hr2]
    rfl
  · rw [hv]
    rfl
  · rw [ht]
    rfl

/-- C8 witness: the empty catalog and an empty disk. -/
theorem c8_witness :
    show_detail [] "deadbeef" = some (.page "Show Not Found" []) ∧
    episode_detail [] "cafebabe" = some (.page "Episode Not Found" []) ∧
    (∀ r, show_detail [] "deadbeef" = some r → r.status = 200) ∧
    (∀ r, episode_detail [] "cafebabe" = some r → r.status = 200) ∧
    serve_video [] "nope.mp4" = .httpError 404 "Video not found" ∧
    (serve_video [] "nope.mp4").status = 404 ∧
    serve_thumb [] "nope.tbn" = .httpError 404 "Thumbnail not found" ∧
    (serve_thumb [] "nope.tbn").status = 404 :=
  c8_not_found_semantics [] [] "deadbeef" "cafebabe" "nope.mp4" "nope.tbn"
    (by decide) (by simp [cmap]) (by decide) (by decide)

/-! ## C9 — the season-letter computation is partial -/

/-- C9: for every episode whose season and episode strings are truthy
but whose season is not a decimal integer literal (`pyInt?` fails, i.e.
`int(ep.season)` raises `ValueError`), rendering the episode detail
page diverges with that exception, and so does the episode card
whenever a thumbnail is present — the season-letter computation
`chr(ord("A") + int(season) - 1)` is partial and guarded only by
truthiness, not by integer validity. -/
theorem c9_season_letter_raises (ep : Episode)
    (hs : truthyStr ep.season = true)
    (he : truthyStr ep.episode = true)
    (hint : pyInt? ep.season = none) :
    episode_detail_page ep = none ∧
      (truthyOpt ep.thumbnail = true → episode_card ep = none) := by
  have hletter : seasonLetterCode ep.season = none := by
    simp [seasonLetterCode, hint]
  constructor
  · simp [episode_detail_page, hs, he, hletter]
  · intro hth
    simp [episode_card, hth, hs, he, hletter]

/-- C9 witness: season "Special" with a thumbnail present. -/
theorem c9_witness :
    episode_detail_page epSpecial = none ∧
      (truthyOpt epSpecial.thumbnail = true → episode_card epSpecial = none) :=
  c9_season_letter_raises epSpecial (by decide) (by decide) (by decide)

/-! ## C5 — idempotence of `normalize` -/

/-- `(String.mk l).toList = l`. -/
theorem toList_mk (l : List Char) : (String.mk l).toList = l := rfl

/-- `String.mk s.toList = s`. -/
theorem mk_toList (s : String) : String.mk s.toList = s := rfl

/-- `cmap f` is the identity on lists whose elements `f` fixes. -/
theorem cmap_id {α : Type} {f : α → List α} {l : List α}
    (h : ∀ c ∈ l, f c = [c]) : cmap f l = l := by
  induction l with
  | nil => rfl
  | cons a l ih =>
    simp only [cmap]
    rw [h a (List.mem_cons_self a l), ih (fun c hc => h c (List.mem_cons_of_mem a hc))]
    rfl

/-- Membership in a `cmap` comes from membership in some image. -/
theorem mem_cmap {α β : Type} {f : α → List β} {l : List α} {c : β}
    (h : c ∈ cmap f l) : ∃ a ∈ l, c ∈ f a := by
  induction l with
  | nil => cases h
  | cons a l ih =>
    rcases List.mem_append.mp h with h1 | h2
    · exact ⟨a, List.mem_cons_self a l, h1⟩
    · obtain ⟨b, hb, hcb⟩ := ih h2
      exact ⟨b, List.mem_cons_of_mem a hb, hcb⟩

/-- A character that every stage of `normalize` leaves alone. -/
def charOK (u : Unicodedata) (c : Char) : Prop :=
  u.decomp c = [c] ∧ u.isMn c = false ∧ u.lowerChar c = [c] ∧
    c ≠ ' ' ∧ c ≠ ',' ∧ c ≠ '?' ∧ c ≠ '!'

/-- Every character of a `normalize` output is fixed by all stages,
provided the unicode tables satisfy: decompositions are fully
decomposed (`h1`), lowercasing a fully-decomposed non-mark character
yields fully-decomposed, non-mark, lowercase-fixed characters (`h2`),
and `'.'` is inert (`h3`) — all true of the real `unicodedata` tables
and `str.lower`. -/
theorem normalize_chars_ok (u : Unicodedata)
    (h1 : ∀ c c', c' ∈ u.decomp c → u.decomp c' = [c'])
    (h2 : ∀ c, u.decomp c = [c] → u.isMn c = false →
      ∀ c' ∈ u.lowerChar c, u.decomp c' = [c'] ∧ u.isMn c' = false ∧ u.lowerChar c' = [c'])
    (h3 : u.decomp '.' = ['.'] ∧ u.isMn '.' = false ∧ u.lowerChar '.' = ['.'])
    (x : String) : ∀ c ∈ (normalize u x).toList, charOK u c := by
  intro c hc
  simp only [normalize, toList_mk] at hc
  obtain ⟨hdot, hpunct⟩ := List.mem_filter.mp hc
  obtain ⟨c2, hc2, hceq⟩ := List.mem_map.mp hdot
  obtain ⟨c1, hc1, hc2mem⟩ := mem_cmap hc2
  obtain ⟨hc1base, hc1mn⟩ := List.mem_filter.mp hc1
  obtain ⟨c0, _, hc1dec⟩ := mem_cmap hc1base
  have hc1full : u.decomp c1 = [c1] := h1 c0 c1 hc1dec
  have hc1mn2 : u.isMn c1 = false := by simpa using hc1mn
  obtain ⟨hd2, hm2, hl2⟩ := h2 c1 hc1full hc1mn2 c2 hc2mem
  by_cases hsp : c2 = ' '
  · rw [if_pos hsp] at hceq
    rw [← hceq]
    exact ⟨h3.1, h3.2.1, h3.2.2, by decide, by decide, by decide, by decide⟩
  · rw [if_neg hsp] at hceq
    subst hceq
    have hp : (¬c2 = ',' ∧ ¬c2 = '?') ∧ ¬c2 = '!' := by
      simpa using hpunct
    exact ⟨hd2, hm2, hl2, hsp, hp.1.1, hp.1.2, hp.2⟩

/-- `normalize` fixes any string all of whose characters are inert. -/
theorem normalize_fixes (u : Unicodedata) {s : String}
    (h : ∀ c ∈ s.toList, charOK u c) : normalize u s = s := by
  have hdec : cmap u.decomp s.toList = s.toList := cmap_id (fun c hc => (h c hc).1)
  have hfil1 : s.toList.filter (fun c => ! u.isMn c) = s.toList :=
    List.filter_eq_self.mpr (fun c hc => by simp [(h c hc).2.1])
  have hlow : cmap u.lowerChar s.toList = s.toList :=
    cmap_id (fun c hc => (h c hc).2.2.1)
  have hmap : s.toList.map (fun c => if c = ' ' then '.' else c) = s.toList := by
    rw [List.map_congr_left (g := id)
      (fun c hc => by rw [if_neg (h c hc).2.2.2.1]; rfl), List.map_id]
  have hfil2 : s.toList.filter (fun c => !(c == ',' || c == '?' || c == '!')) = s.toList :=
    List.filter_eq_self.mpr (fun c hc => by
      obtain ⟨-, -, -, -, hcc, hcq, hce⟩ := h c hc
      simp [hcc, hcq, hce])
  simp only [normalize, hdec, hfil1, hlow, hmap, hfil2]
  exact mk_toList s

/-- C5: `normalize` is idempotent — for every input string, applying it
twice equals applying it once — under the stated properties of the
modelled `unicodedata` tables and `str.lower` (`h1`–`h3`, which hold of
the real tables). -/
theorem c5_normalize_idempotent (u : Unicodedata)
    (h1 : ∀ c c', c' ∈ u.decomp c → u.decomp c' = [c'])
    (h2 : ∀ c, u.decomp c = [c] → u.isMn c = false →
      ∀ c' ∈ u.lowerChar c, u.decomp c' = [c'] ∧ u.isMn c' = false ∧ u.lowerChar c' = [c'])
    (h3 : u.decomp '.' = ['.'] ∧ u.isMn '.' = false ∧ u.lowerChar '.' = ['.'])
    (x : String) :
    normalize u (normalize u x) = normalize u x :=
  normalize_fixes u (normalize_chars_ok u h1 h2 h3 x)

/-- A trivial instantiation of the table model (identity decomposition,
no marks, identity lowercasing), satisfying `h1`–`h3` definitionally. -/
def idData : Unicodedata where
  decomp c := [c]
  isMn _ := false
  lowerChar c := [c]

/-- C5 witness: idempotence applied at a concrete model and string. -/
theorem c5_witness :
    normalize idData (normalize idData "An, Example!") = normalize idData "An, Example!" :=
  c5_normalize_idempotent idData
    (fun _ _ _ => rfl)
    (fun _ _ _ _ _ => ⟨rfl, rfl, rfl⟩)
    ⟨rfl, rfl, rfl⟩
    "An, Example!"

/-! ## C10 — every catalog entry is keyed by its own show title -/

/-- The C10 invariant: every entry's key is the show key of its Show's
title, and every contained episode's show title hashes to that key. -/
def catalogInv (d : List (String × Show)) : Prop :=
  ∀ kv ∈ d, kv.1 = show_key kv.2.title ∧
    ∀ e ∈ kv.2.episodes, show_key e.showtitle = kv.1

/-- `dict` assignment preserves the invariant. -/
theorem dictSet_inv {d : List (String × Show)} {k : String} {v : Show}
    (hd : catalogInv d) (hk : k = show_key v.title)
    (hv : ∀ e ∈ v.episodes, show_key e.showtitle = k) :
    catalogInv (dictSet d k v) := by
  unfold dictSet
  split
  · intro kv hkv
    rcases List.mem_map.mp hkv with ⟨kv0, h0, hm⟩
    by_cases hb : kv0.1 == k
    · rw [if_pos hb] at hm
      have hk0 : kv0.1 = k := by simpa using hb
      rw [← hm]
      exact ⟨hk0.trans hk, fun e he => (hv e he).trans hk0.symm⟩
    · rw [if_neg hb] at hm
      rw [← hm]
      exact hd kv0 h0
  · intro kv hkv
    rcases List.mem_append.mp hkv with h0 | h0
    · exact hd kv h0
    · have : kv = (k, v) := by simpa using h0
      subst this
      exact ⟨hk, hv⟩

/-- `setdefault(k, deflt).episodes.append(e)` preserves the invariant. -/
theorem appendEpisode_inv {d : List (String × Show)} {k : String} {deflt : Show}
    {e : Episode} (hd : catalogInv d)
    (hk : k = show_key deflt.title)
    (he : show_key e.showtitle = k)
    (hdeflt : ∀ e2 ∈ deflt.episodes, show_key e2.showtitle = k) :
    catalogInv (appendEpisode d k deflt e) := by
  unfold appendEpisode
  split
  · intro kv hkv
    rcases List.mem_map.mp hkv with ⟨kv0, h0, hm⟩
    by_cases hb : kv0.1 == k
    · rw [if_pos hb] at hm
      have hk0 : kv0.1 = k := by simpa using hb
      obtain ⟨hkey, heps⟩ := hd kv0 h0
      rw [← hm]
      refine ⟨hkey, fun e2 he2 => ?_⟩
      rcases List.mem_append.mp he2 with h2 | h2
      · exact heps e2 h2
      · have : e2 = e := by simpa using h2
        subst this
        exact he.trans hk0.symm
    · rw [if_neg hb] at hm
      rw [← hm]
      exact hd kv0 h0
  · intro kv hkv
    rcases List.mem_append.mp hkv with h0 | h0
    · exact hd kv h0
    · have : kv = (k, { deflt with episodes := deflt.episodes ++ [e] }) := by simpa using h0
      subst this
      refine ⟨hk, fun e2 he2 => ?_⟩
      rcases List.mem_append.mp he2 with h2 | h2
      · exact hdeflt e2 h2
      · have : e2 = e := by simpa using h2
        subst this
        exact he

/-- One scan step preserves the invariant. -/
theorem scanStep_inv (u : Unicodedata) (fs : List String)
    (content : String → Option XmlNode) (d : List (String × Show)) (nfo : String)
    (hd : catalogInv d) : catalogInv (scanStep u fs content d nfo) := by
  simp only [scanStep]
  split
  · exact dictSet_inv hd rfl (fun e he => by cases he)
  · exact appendEpisode_inv hd rfl rfl (fun e2 he2 => by cases he2)
  · exact hd

/-- The scan fold preserves the invariant. -/
theorem scanFold_inv (u : Unicodedata) (fs : List String)
    (content : String → Option XmlNode) (l : List String) (d : List (String × Show))
    (hd : catalogInv d) : catalogInv (l.foldl (scanStep u fs content) d) := by
  induction l generalizing d with
  | nil => exact hd
  | cons a l ih => exact ih _ (scanStep_inv u fs content d a hd)

/-- `(cmap byteHex l).length = 2 * l.length`. -/
theorem cmap_byteHex_length (l : List Nat) : (cmap byteHex l).length = 2 * l.length := by
  induction l with
  | nil => rfl
  | cons a l ih =>
    simp only [cmap, byteHex, List.length_append, List.length_cons, List.length_nil, ih]
    omega

/-- An MD5 digest is always 16 bytes. -/
theorem md5Bytes_length (m : List Nat) : (md5Bytes m).length = 16 := by
  simp [md5Bytes, le4]

/-- `hexdigest` is 32 characters. -/
theorem md5HexChars_length (m : List Nat) : (md5HexChars m).length = 32 := by
  rw [md5HexChars, cmap_byteHex_length, md5Bytes_length]

/-- A show key is 8 characters long. -/
theorem show_key_length (t : String) : (show_key t).length = 8 := by
  show ((md5HexChars (utf8 t)).take 8).length = 8
  rw [List.length_take, md5HexChars_length]
  decide

/-- `hexDigit` of a value below 16 is a hex character. -/
theorem hexDigit_mem : ∀ n, n < 16 → isHexDigit (hexDigit n) = true := by decide

/-- Every character of a show key is a lowercase hex digit. -/
theorem show_key_hex (t : String) : ∀ ch ∈ (show_key t).toList, isHexDigit ch = true := by
  intro ch hch
  rw [show_key, toList_mk] at hch
  have hfull : ch ∈ md5HexChars (utf8 t) := List.take_subset 8 _ hch
  obtain ⟨b, _, hb⟩ := mem_cmap hfull
  have hb2 : ch = hexDigit (b / 16 % 16) ∨ ch = hexDigit (b % 16) := by
    simpa [byteHex] using hb
  rcases hb2 with h1 | h1
  · rw [h1]
    exact hexDigit_mem _ (Nat.mod_lt _ (by norm_num))
  · rw [h1]
    exact hexDigit_mem _ (Nat.mod_lt _ (by norm_num))

/-- C10: every key–Show pair `(k, s)` of every catalog produced by
`scan` satisfies `k = show_key s.title` (with `show_key` an 8-character
lowercase-hex truncated MD5), and every episode stored under `k` has
`show_key e.showtitle = k` — each episode sits under exactly the key
derived from its own show title. -/
theorem c10_scan_key_invariant (u : Unicodedata) (fs : List String)
    (content : String → Option XmlNode) (k : String) (s : Show)
    (hmem : (k, s) ∈ scan u fs content) :
    k = show_key s.title ∧ k.length = 8 ∧
      (∀ ch ∈ k.toList, isHexDigit ch = true) ∧
      ∀ e ∈ s.episodes, show_key e.showtitle = k := by
  have hinv : catalogInv (scan u fs content) :=
    scanFold_inv u fs content _ [] (fun kv hkv => by cases hkv)
  obtain ⟨hkey, heps⟩ := hinv (k, s) hmem
  have hkey2 : k = show_key s.title := hkey
  have heps2 : ∀ e ∈ s.episodes, show_key e.showtitle = k := heps
  refine ⟨hkey2, ?_, ?_, heps2⟩
  · rw [hkey2]
    exact show_key_length s.title
  · rw [hkey2]
    exact show_key_hex s.title

/-- C10 witness: the invariant at the concrete C1 catalog entry. -/
theorem c10_witness :
    show_key "Foo" = show_key showFooA.title ∧ (show_key "Foo").length = 8 ∧
      (∀ ch ∈ (show_key "Foo").toList, isHexDigit ch = true) ∧
      ∀ e ∈ showFooA.episodes, show_key e.showtitle = show_key "Foo" :=
  c10_scan_key_invariant asciiData fsC1A contentC1 (show_key "Foo") showFooA (by decide)

end Tooba
